import Mathlib

/-! dynamicSmagorinsky: the accessors and field updates of the SGS model.

A shallow embedding of `dynamicSmagorinsky.H`
(`Foam::LESModels::dynamicSmagorinsky<BasicTurbulenceModel>`).

* The scalar type `S` stands for OpenFOAM's `scalar`.  The part embedded from
  the header (`k()`, `DkEff()`) only needs the scalar addition, so it is stated
  for every `S` with `[Add S]`; ordering facts are stated for every linearly
  ordered additive group (and evaluated on `ℤ` / `ℚ`).
* A `volScalarField` over a mesh with `nCells` cells is its name together with
  one scalar per cell, indexed by the cell id `Fin nCells`; two fields of the
  same model therefore range over the same cells, in the same order.
* Member functions are written in state-passing style: they take the model
  object and give back the returned value together with the object after the
  call.
-/

namespace Foam

/-- `volScalarField`: a named field holding one scalar per cell of the mesh. -/
structure volScalarField (S : Type) (nCells : Nat) where
  name : String
  internalField : Fin nCells → S

namespace volScalarField

variable {S : Type} {nCells : Nat}

/-- `operator+(const volScalarField&, const volScalarField&)`: the cell-by-cell
sum; the result carries the name `(a+b)`. -/
def add [Add S] (a b : volScalarField S nCells) : volScalarField S nCells :=
  { name := "(" ++ a.name ++ "+" ++ b.name ++ ")"
    internalField := fun celli => a.internalField celli + b.internalField celli }

instance [Add S] : Add (volScalarField S nCells) := ⟨add⟩

/-- `volScalarField(const word& newName, const tmp<volScalarField>&)`: the
constructor taking the values of a temporary field under a new name. -/
def mk_named (newName : String) (tf : volScalarField S nCells) : volScalarField S nCells :=
  { tf with name := newName }

end volScalarField

namespace LESModels

/-- The data of a `dynamicSmagorinsky` object that the member functions of the
header read: the private member `k_`, the member `nut_` inherited from the
eddy-viscosity base class, and the field that the inherited `nu()` returns. -/
structure dynamicSmagorinsky (S : Type) (nCells : Nat) where
  k_ : volScalarField S nCells
  nut_ : volScalarField S nCells
  nu : volScalarField S nCells

namespace dynamicSmagorinsky

variable {S : Type} {nCells : Nat}

/-- `tmp<volScalarField> k() const { return k_; }`: the returned field and the
object after the call (the body assigns nothing). -/
def k (self : dynamicSmagorinsky S nCells) :
    volScalarField S nCells × dynamicSmagorinsky S nCells :=
  (self.k_, self)

/-- `tmp<volScalarField> DkEff() const`:
`new volScalarField("DkEff", this->nut_ + this->nu())`, and the object after the
call (the body assigns nothing). -/
def DkEff [Add S] (self : dynamicSmagorinsky S nCells) :
    volScalarField S nCells × dynamicSmagorinsky S nCells :=
  (volScalarField.mk_named "DkEff" (self.nut_ + self.nu), self)

end dynamicSmagorinsky

end LESModels

/-! ## The update path (`dynamicSmagorinsky.C`, declared in the header only)

The header declares `correct()`, `correctNut()`, `updateSubGridScaleFields(D)`,
`cD(D)` and `cI(D)`; their bodies are in `dynamicSmagorinsky.C`.  The
definitions below follow the specification's description of them (§4.1, §4.4,
§4.5, §4.6, §6).  What the specification leaves to external collaborators or
does not fix (the raw coefficient formulas, the square root, the velocity
gradient, the filter width, the mesh connectivity and cell volumes) is a
parameter. -/

/-- Modelled from the spec: the `tensor` type of the field library (§6, "field
container abstraction"), here the velocity gradient in one cell. -/
structure tensor (S : Type) where
  xx : S
  xy : S
  xz : S
  yx : S
  yy : S
  yz : S
  zx : S
  zy : S
  zz : S

/-- Modelled from the spec: the `symmTensor` type of the field library (§3,
"symmetric tensor per cell"). -/
structure symmTensor (S : Type) where
  xx : S
  xy : S
  xz : S
  yy : S
  yz : S
  zz : S

section primitives

variable {S : Type} [LinearOrderedField S]

/-- Modelled from the spec: the library operation `symm` used by the
Strain-Rate Extractor (§4.1, `D = symm(∇U)`), the symmetric part of a tensor. -/
def symm (t : tensor S) : symmTensor S :=
  { xx := t.xx
    xy := (t.xy + t.yx) / 2
    xz := (t.xz + t.zx) / 2
    yy := t.yy
    yz := (t.yz + t.zy) / 2
    zz := t.zz }

/-- Modelled from the spec: the library operation `sqr` on scalars (§4.5, the
squares in `Δ²` and `|D|²`). -/
def sqr (x : S) : S := x * x

/-- Modelled from the spec: the library operation `magSqr` on symmetric tensors
(§6, "magnitude"): the double inner product of the tensor with itself. -/
def magSqr (d : symmTensor S) : S :=
  sqr d.xx + 2 * sqr d.xy + 2 * sqr d.xz + sqr d.yy + 2 * sqr d.yz + sqr d.zz

/-- Modelled from the spec: the library operation `mag` on symmetric tensors
(§4.5, the strain magnitude `|D|`); the scalar square root is a parameter. -/
def mag (sqrt : S → S) (d : symmTensor S) : S := sqrt (magSqr d)

end primitives

/-- Modelled from the spec: the mesh connectivity consumed by the local
averaging (§4.4, §6): the face-sharing neighbours of every cell and the cell
volumes, which are positive. -/
structure Mesh (S : Type) [LinearOrderedField S] (nCells : Nat) where
  neighbours : Fin nCells → List (Fin nCells)
  V : Fin nCells → S
  V_pos : ∀ celli, 0 < V celli

/-- Modelled from the spec: the weighting of the local average (§4.4,
"weighted uniformly or by cell volume (implementation choice)"). -/
inductive Weighting where
  | uniform
  | volume
  deriving DecidableEq

namespace Mesh

variable {S : Type} [LinearOrderedField S] {nCells : Nat}

/-- Modelled from the spec: the single-layer stencil of a cell (§4.4, "the cell
itself and its face-neighbors"). -/
def stencil (mesh : Mesh S nCells) (celli : Fin nCells) : List (Fin nCells) :=
  celli :: mesh.neighbours celli

/-- Modelled from the spec: the weight of a stencil cell under the chosen
weighting (§4.4): `1` when uniform, the cell volume when volume-weighted. -/
def weight (mesh : Mesh S nCells) (w : Weighting) (cellj : Fin nCells) : S :=
  match w with
  | Weighting.uniform => 1
  | Weighting.volume => mesh.V cellj

/-- Modelled from the spec: the Local Averager (§4.4): for each cell, the
weighted average of the raw coefficient over the cell's stencil. -/
def localAverage (mesh : Mesh S nCells) (w : Weighting) (raw : Fin nCells → S) :
    Fin nCells → S :=
  fun celli =>
    ((mesh.stencil celli).map (fun cellj => mesh.weight w cellj * raw cellj)).sum
      / ((mesh.stencil celli).map (fun cellj => mesh.weight w cellj)).sum

end Mesh

namespace LESModels

/-- Modelled from the spec: what one `correct()` call reads from its external
collaborators (§3, §6): the mesh and the weighting choice, the scalar square
root, the velocity gradient `∇U`, the filter width `Δ`, and the Coefficient
Calculator's raw `cD` and `cI` as functions of the strain-rate field (§4.3; the
specification does not fix their formulas). -/
structure Collaborators (S : Type) [LinearOrderedField S] (nCells : Nat) where
  mesh : Mesh S nCells
  weighting : Weighting
  sqrt : S → S
  gradU : Fin nCells → tensor S
  delta : Fin nCells → S
  rawCD : (Fin nCells → symmTensor S) → Fin nCells → S
  rawCI : (Fin nCells → symmTensor S) → Fin nCells → S

namespace dynamicSmagorinsky

variable {S : Type} [LinearOrderedField S] {nCells : Nat}

/-- Modelled from the spec: the Strain-Rate Extractor (§4.1), `D = symm(∇U)` in
every cell. -/
def strainRate (env : Collaborators S nCells) : Fin nCells → symmTensor S :=
  fun celli => symm (env.gradU celli)

/-- Modelled from the spec: the body of `cD(D)` (§4.3, §4.4): the local average
of the raw eddy-viscosity coefficient. -/
def cD (env : Collaborators S nCells) (D : Fin nCells → symmTensor S) : Fin nCells → S :=
  env.mesh.localAverage env.weighting (env.rawCD D)

/-- Modelled from the spec: the body of `cI(D)` (§4.3, §4.4): the local average
of the raw SGS-kinetic-energy coefficient. -/
def cI (env : Collaborators S nCells) (D : Fin nCells → symmTensor S) : Fin nCells → S :=
  env.mesh.localAverage env.weighting (env.rawCI D)

/-- Modelled from the spec: the SGS kinetic energy written by the SGS Field
Updater (§4.5, `k = cI · Δ² · |D|²`), clipped to be non-negative (§4.4). -/
def sgsK (env : Collaborators S nCells) (D : Fin nCells → symmTensor S) : Fin nCells → S :=
  fun celli => max (cI env D celli * sqr (env.delta celli) * sqr (mag env.sqrt (D celli))) 0

/-- Modelled from the spec: the eddy viscosity written by the SGS Field Updater
(§4.5, `nut = cD · Δ² · |D|`), clipped from below at `-nu` (§4.4). -/
def sgsNut (env : Collaborators S nCells) (D : Fin nCells → symmTensor S)
    (nu : Fin nCells → S) : Fin nCells → S :=
  fun celli => max (cD env D celli * sqr (env.delta celli) * mag env.sqrt (D celli)) (-nu celli)

/-- Modelled from the spec: the body of `updateSubGridScaleFields(D)` (§4.5):
overwrites the stored `k_` and the base model's `nut_` in place. -/
def updateSubGridScaleFields (env : Collaborators S nCells) (D : Fin nCells → symmTensor S)
    (self : dynamicSmagorinsky S nCells) : dynamicSmagorinsky S nCells :=
  { self with
    k_ := { self.k_ with internalField := sgsK env D }
    nut_ := { self.nut_ with internalField := sgsNut env D self.nu.internalField } }

/-- Modelled from the spec: the body of `correctNut()` (§6, "updates eddy
viscosity only"). -/
def correctNut (env : Collaborators S nCells) (self : dynamicSmagorinsky S nCells) :
    dynamicSmagorinsky S nCells :=
  { self with
    nut_ := { self.nut_ with
      internalField := sgsNut env (strainRate env) self.nu.internalField } }

/-- Modelled from the spec: the body of `correct()` (§4.6, §6): calls
`correctNut()` and performs the full update, SGS energy and eddy viscosity, on
the strain rate of the current velocity field. -/
def correct (env : Collaborators S nCells) (self : dynamicSmagorinsky S nCells) :
    dynamicSmagorinsky S nCells :=
  updateSubGridScaleFields env (strainRate env) (correctNut env self)

end dynamicSmagorinsky

/-! ## Concrete model objects -/

/-- A one-cell model whose eddy viscosity sits on the clipping bound
`nut_ = -nu()`: `nut_ = -1`, `nu() = 1`. -/
def stateOnBound : dynamicSmagorinsky ℚ 1 :=
  { k_ := { name := "k", internalField := fun _ => 0 }
    nut_ := { name := "nut", internalField := fun _ => -1 }
    nu := { name := "nu", internalField := fun _ => 1 } }

/-- A one-cell model whose eddy viscosity lies below the clipping bound:
`nut_ = -3`, `nu() = 1`. -/
def stateBelowBound : dynamicSmagorinsky ℚ 1 :=
  { k_ := { name := "k", internalField := fun _ => 0 }
    nut_ := { name := "nut", internalField := fun _ => -3 }
    nu := { name := "nu", internalField := fun _ => 1 } }

/-- A one-cell model with `nut_ = 2` and `nu() = 1/2`. -/
def stateBackscatterFree : dynamicSmagorinsky ℚ 1 :=
  { k_ := { name := "k", internalField := fun _ => 3 }
    nut_ := { name := "nut", internalField := fun _ => 2 }
    nu := { name := "nu", internalField := fun _ => 1 / 2 } }

/-- A two-cell one-dimensional mesh: each cell is the other's only face
neighbour; the cell volumes are `1` and `3`. -/
def twoCellMesh : Mesh ℚ 2 :=
  { neighbours := fun celli => [celli + 1]
    V := fun celli => if celli = 0 then 1 else 3
    V_pos := by
      intro celli
      show (0 : ℚ) < if celli = 0 then 1 else 3
      split <;> norm_num }

/-- The collaborators of a call on the two-cell mesh: volume weighting, the
velocity `U = (x, 0, 0)` (gradient `xx = 1`), filter width `1`, and raw
coefficients that are the same in both cells (`7/100` and `1/5`). -/
def twoCellEnv : Collaborators ℚ 2 :=
  { mesh := twoCellMesh
    weighting := Weighting.volume
    sqrt := Rat.sqrt
    gradU := fun _ => { xx := 1, xy := 0, xz := 0, yx := 0, yy := 0, yz := 0,
                        zx := 0, zy := 0, zz := 0 }
    delta := fun _ => 1
    rawCD := fun _ _ => 7 / 100
    rawCI := fun _ _ => 1 / 5 }

end LESModels

/-! ## Theorems -/

namespace Mesh

variable {S : Type} [LinearOrderedField S] {nCells : Nat}

/-- Every weight is positive: `1` when uniform, a cell volume otherwise. -/
theorem weight_pos (mesh : Mesh S nCells) (w : Weighting) (cellj : Fin nCells) :
    0 < mesh.weight w cellj := by
  cases w
  · exact zero_lt_one
  · exact mesh.V_pos cellj

/-- The total weight of a stencil is positive: the stencil contains the cell
itself. -/
theorem stencil_weight_pos (mesh : Mesh S nCells) (w : Weighting) (celli : Fin nCells) :
    0 < ((mesh.stencil celli).map (fun cellj => mesh.weight w cellj)).sum := by
  have hnonneg : 0 ≤ ((mesh.neighbours celli).map (fun cellj => mesh.weight w cellj)).sum := by
    apply List.sum_nonneg
    intro x hx
    obtain ⟨cellj, _, rfl⟩ := List.mem_map.1 hx
    exact (mesh.weight_pos w cellj).le
  have hself := mesh.weight_pos w celli
  simp only [stencil, List.map_cons, List.sum_cons]
  exact add_pos_of_pos_of_nonneg hself hnonneg

/-- The local average of a field that is `c0` in every cell is `c0` in every
cell. -/
theorem localAverage_const (mesh : Mesh S nCells) (w : Weighting) (raw : Fin nCells → S)
    (c0 : S) (hraw : ∀ celli, raw celli = c0) (celli : Fin nCells) :
    mesh.localAverage w raw celli = c0 := by
  have hpos := mesh.stencil_weight_pos w celli
  unfold localAverage
  simp only [hraw]
  rw [List.sum_map_mul_right]
  exact mul_div_cancel_left₀ c0 hpos.ne'

end Mesh

namespace LESModels

namespace dynamicSmagorinsky

/-- C1: the field returned by `DkEff()` is `nut_ + nu()` in every cell, taken
from the values held at the time of the call: after `nut_` has been replaced by
any other field following a first call, the next call returns the sum with the
new `nut_`. -/
theorem DkEff_eq_nut_add_nu {S : Type} [Add S] {nCells : Nat}
    (self : dynamicSmagorinsky S nCells) (nutNew : volScalarField S nCells)
    (celli : Fin nCells) :
    (self.DkEff).1.internalField celli
        = self.nut_.internalField celli + self.nu.internalField celli
      ∧ (({ (self.DkEff).2 with nut_ := nutNew } : dynamicSmagorinsky S nCells).DkEff).1.internalField
            celli
          = nutNew.internalField celli + self.nu.internalField celli :=
  ⟨rfl, rfl⟩

/-- C2 (as stated, refuted): on the one-cell model with `nut_ = -1` and
`nu() = 1` the value returned by `DkEff()` is `0`, and on the one-cell model
with `nut_ = -3` and `nu() = 1` it is `-2`; neither value is positive. -/
theorem DkEff_not_positive_on_bound :
    ((stateOnBound.DkEff).1.internalField 0 = 0
        ∧ ¬ 0 < (stateOnBound.DkEff).1.internalField 0)
      ∧ ((stateBelowBound.DkEff).1.internalField 0 = -2
        ∧ ¬ 0 < (stateBelowBound.DkEff).1.internalField 0) := by
  have h : (stateOnBound.DkEff).1.internalField 0 = 0 := by
    show (-1 : ℚ) + 1 = 0
    norm_num
  have h2 : (stateBelowBound.DkEff).1.internalField 0 = -2 := by
    show (-3 : ℚ) + 1 = -2
    norm_num
  refine ⟨⟨h, ?_⟩, ⟨h2, ?_⟩⟩
  · rw [h]
    exact lt_irrefl 0
  · rw [h2]
    norm_num

/-- C2 (amended): `DkEff()` applies no clipping of its own: in every cell it
returns `nut_ + nu()` as is, so its value is positive exactly when
`nut_ > -nu()` in that cell, it is `0` where `nut_ = -nu()`, and it is negative
where `nut_ < -nu()`. -/
theorem DkEff_pos_iff {S : Type} [LinearOrderedAddCommGroup S] {nCells : Nat}
    (self : dynamicSmagorinsky S nCells) (celli : Fin nCells) :
    (self.DkEff).1.internalField celli
        = self.nut_.internalField celli + self.nu.internalField celli
      ∧ (0 < (self.DkEff).1.internalField celli
          ↔ -self.nu.internalField celli < self.nut_.internalField celli)
      ∧ (self.nut_.internalField celli = -self.nu.internalField celli
          → (self.DkEff).1.internalField celli = 0)
      ∧ (self.nut_.internalField celli < -self.nu.internalField celli
          → (self.DkEff).1.internalField celli < 0) := by
  show self.nut_.internalField celli + self.nu.internalField celli = _
    ∧ (0 < self.nut_.internalField celli + self.nu.internalField celli ↔ _)
    ∧ (_ → self.nut_.internalField celli + self.nu.internalField celli = 0)
    ∧ (_ → self.nut_.internalField celli + self.nu.internalField celli < 0)
  refine ⟨rfl, neg_lt_iff_pos_add.symm, fun h => ?_, fun h => ?_⟩
  · rw [h, neg_add_cancel]
  · have h1 := add_lt_add_right h (self.nu.internalField celli)
    rwa [neg_add_cancel] at h1

/-- C2 (amended) at concrete objects: with `nut_ = -3`, `nu() = 1` the returned
value is negative (no clip at zero), with `nut_ = -1`, `nu() = 1` it is `0`, and
with `nut_ = 2`, `nu() = 1/2` it is positive. -/
theorem DkEff_pos_iff_witness :
    (stateBelowBound.DkEff).1.internalField 0 < 0
      ∧ (stateOnBound.DkEff).1.internalField 0 = 0
      ∧ 0 < (stateBackscatterFree.DkEff).1.internalField 0 :=
  ⟨(DkEff_pos_iff stateBelowBound 0).2.2.2 (by show (-3 : ℚ) < -1; norm_num),
   (DkEff_pos_iff stateOnBound 0).2.2.1 (by show (-1 : ℚ) = -1; rfl),
   (DkEff_pos_iff stateBackscatterFree 0).2.1.2 (by show -(1 / 2 : ℚ) < 2; norm_num)⟩

/-- C5: `k()` returns exactly the stored field `k_`. -/
theorem k_eq_stored {S : Type} {nCells : Nat} (self : dynamicSmagorinsky S nCells) :
    (self.k).1 = self.k_
      ∧ ∀ celli, (self.k).1.internalField celli = self.k_.internalField celli :=
  ⟨rfl, fun _ => rfl⟩

/-- C8: `k()` and `DkEff()` leave the object (its `k_`, `nut_` and `nu()`)
unchanged, and a second call on the object left by the first returns the same
field. -/
theorem accessors_pure {S : Type} [Add S] {nCells : Nat}
    (self : dynamicSmagorinsky S nCells) :
    ((self.k).2 = self ∧ (self.k).2.k_ = self.k_ ∧ (self.k).2.nut_ = self.nut_
        ∧ (self.k).2.nu = self.nu)
      ∧ ((self.DkEff).2 = self ∧ (self.DkEff).2.k_ = self.k_
        ∧ (self.DkEff).2.nut_ = self.nut_ ∧ (self.DkEff).2.nu = self.nu)
      ∧ ((self.k).2.k).1 = (self.k).1
      ∧ ((self.DkEff).2.DkEff).1 = (self.DkEff).1
      ∧ ((self.k).2.DkEff).1 = (self.DkEff).1
      ∧ ((self.DkEff).2.k).1 = (self.k).1 :=
  ⟨⟨rfl, rfl, rfl, rfl⟩, ⟨rfl, rfl, rfl, rfl⟩, rfl, rfl, rfl, rfl⟩

/-- C9: in every cell the `DkEff()` value is `>= 0` exactly when
`nut_ >= -nu()`, and it is `0` where `nut_ = -nu()`. -/
theorem DkEff_nonneg_iff {S : Type} [LinearOrderedAddCommGroup S] {nCells : Nat}
    (self : dynamicSmagorinsky S nCells) (celli : Fin nCells) :
    (0 ≤ (self.DkEff).1.internalField celli
        ↔ -self.nu.internalField celli ≤ self.nut_.internalField celli)
      ∧ (self.nut_.internalField celli = -self.nu.internalField celli
          → (self.DkEff).1.internalField celli = 0) := by
  show (0 ≤ self.nut_.internalField celli + self.nu.internalField celli ↔ _)
    ∧ (_ → self.nut_.internalField celli + self.nu.internalField celli = 0)
  refine ⟨neg_le_iff_add_nonneg.symm, fun h => ?_⟩
  rw [h, neg_add_cancel]

/-- C9 at concrete objects: on the bound (`nut_ = -1`, `nu() = 1`) the value is
`0`, and away from it (`nut_ = 2`, `nu() = 1/2`) it is non-negative. -/
theorem DkEff_nonneg_iff_witness :
    (stateOnBound.DkEff).1.internalField 0 = 0
      ∧ 0 ≤ (stateBackscatterFree.DkEff).1.internalField 0 :=
  ⟨(DkEff_nonneg_iff stateOnBound 0).2 (by show (-1 : ℚ) = -1; rfl),
   (DkEff_nonneg_iff stateBackscatterFree 0).1.2 (by show -(1 / 2 : ℚ) ≤ 2; norm_num)⟩

section update

variable {S : Type} [LinearOrderedField S] {nCells : Nat}

/-- With zero velocity gradient in every cell (uniform velocity), a square root
with `sqrt 0 = 0` and a non-negative molecular viscosity, `correct()` leaves
`nut_ = 0` and `k_ = 0` in every cell, whatever the coefficient fields are. -/
theorem correct_zero_strain (env : Collaborators S nCells)
    (self : dynamicSmagorinsky S nCells)
    (hU : ∀ celli, env.gradU celli
      = { xx := 0, xy := 0, xz := 0, yx := 0, yy := 0, yz := 0, zx := 0, zy := 0, zz := 0 })
    (hsqrt : env.sqrt 0 = 0) (hnu : ∀ celli, 0 ≤ self.nu.internalField celli)
    (celli : Fin nCells) :
    (correct env self).nut_.internalField celli = 0
      ∧ (correct env self).k_.internalField celli = 0 := by
  have hmag : mag env.sqrt (strainRate env celli) = 0 := by
    simp [mag, magSqr, strainRate, symm, hU, sqr, hsqrt]
  show sgsNut env (strainRate env) self.nu.internalField celli = 0
    ∧ sgsK env (strainRate env) celli = 0
  unfold sgsNut sgsK
  rw [hmag]
  simp [sqr, hnu celli]

/-- C3: after `correct()` every cell of the stored `k_`, and of the field that
`k()` then returns, is `>= 0`. -/
theorem correct_k_nonneg (env : Collaborators S nCells)
    (self : dynamicSmagorinsky S nCells) (celli : Fin nCells) :
    0 ≤ (correct env self).k_.internalField celli
      ∧ 0 ≤ ((correct env self).k).1.internalField celli :=
  ⟨le_max_right _ _, le_max_right _ _⟩

/-- C4: after `correct()`, and after `correctNut()`, every cell satisfies
`nut_ + nu() >= 0`. -/
theorem correct_nut_add_nu_nonneg (env : Collaborators S nCells)
    (self : dynamicSmagorinsky S nCells) (celli : Fin nCells) :
    0 ≤ (correct env self).nut_.internalField celli
          + (correct env self).nu.internalField celli
      ∧ 0 ≤ (correctNut env self).nut_.internalField celli
          + (correctNut env self).nu.internalField celli := by
  constructor
  · show 0 ≤ sgsNut env (strainRate env) self.nu.internalField celli
        + self.nu.internalField celli
    have h := le_max_right
      (cD env (strainRate env) celli * sqr (env.delta celli)
        * mag env.sqrt (strainRate env celli)) (-self.nu.internalField celli)
    unfold sgsNut
    linarith
  · show 0 ≤ sgsNut env (strainRate env) self.nu.internalField celli
        + self.nu.internalField celli
    have h := le_max_right
      (cD env (strainRate env) celli * sqr (env.delta celli)
        * mag env.sqrt (strainRate env celli)) (-self.nu.internalField celli)
    unfold sgsNut
    linarith

/-- C7: if the raw coefficient is `c0` in every cell, the locally averaged
coefficient is `c0` in every cell, for `cD` and for `cI`, on every mesh and
under either weighting. -/
theorem averaged_coefficient_const (env : Collaborators S nCells)
    (D : Fin nCells → symmTensor S) (c0 : S) :
    ((∀ celli, env.rawCD D celli = c0) → ∀ celli, cD env D celli = c0)
      ∧ ((∀ celli, env.rawCI D celli = c0) → ∀ celli, cI env D celli = c0) :=
  ⟨fun h celli => env.mesh.localAverage_const env.weighting (env.rawCD D) c0 h celli,
   fun h celli => env.mesh.localAverage_const env.weighting (env.rawCI D) c0 h celli⟩

end update

/-- C7 on the two-cell mesh with volume weighting: raw `cD = 7/100` and raw
`cI = 1/5` in both cells give the same averaged values in cell `0` and `1`. -/
theorem averaged_coefficient_const_witness :
    cD twoCellEnv (strainRate twoCellEnv) 0 = 7 / 100
      ∧ cI twoCellEnv (strainRate twoCellEnv) 1 = 1 / 5 :=
  ⟨(averaged_coefficient_const twoCellEnv (strainRate twoCellEnv) (7 / 100)).1
      (fun _ => rfl) 0,
   (averaged_coefficient_const twoCellEnv (strainRate twoCellEnv) (1 / 5)).2
      (fun _ => rfl) 1⟩

end dynamicSmagorinsky

end LESModels

end Foam
